import Mathlib

/-!
Formal model of the software-rasterization surface in `examples/render.rs`
of the skribo repository: the `composite` coverage-blending function, the
`SimpleSurface` pixel buffer with its `new`, `paint_from_canvas` (blit with
clipping) and `write_pgm` (serialization) operations.

Machine-integer conventions of the shallow embedding:
* `u8`/`u16` values are `Nat`; wrapping points of the source (the `u16`
  multiplication and addition, the `as u8` truncation) are written with an
  explicit `% 65536` / `% 256`.
* The `i32` coordinate arithmetic of `paint_from_canvas` is modeled on
  unbounded `Int`.  The blit-correctness theorem (C1) carries hypotheses
  (`width * height < 2^31`, `width - x < 2^31`, `height - y < 2^31`,
  offsets in i32 range, ...) under which every i32 intermediate of the
  source — the dimension casts, `-x`, `w - x`, `h - y` and all loop
  index computations — is representable, so the model agrees with the
  machine arithmetic step by step on that domain.  The no-op and safety
  theorems (C4, C5) assume only exact dimension casts and i32 offsets:
  at the wrap sites that remain possible (`w - x`/`h - y` overflowing,
  `-x`/`-y` at offset `-2^31`) the wrapped i32 value is negative, so the
  machine clip rectangle is a subset of the model's, and the stated
  no-op / everywhere-in-bounds behavior carries over to the machine.
* `as usize` (the array-indexing casts) is modeled bit-faithfully for a
  64-bit platform as reinterpretation modulo `2^64`.
* Rust's panicking index operator is modeled by `Option`: an out-of-bounds
  access makes the whole blit return `none`.
-/

/-- `fn composite(a: u8, b: u8) -> u8` from `examples/render.rs`:
`let y = ((255 - a) as u16) * ((255 - b) as u16);`
`let y = (y + (y >> 8) + 0x80) >> 8;` (fast approximation to `round(y / 255)`)
`255 - (y as u8)`.
The `u8` subtractions `255 - a` and `255 - b` cannot underflow for `u8`
inputs, and `Nat` subtraction agrees with them there; the `u16` product and
sum carry the wrap `% 65536` of the machine type, and `as u8` is `% 256`. -/
def composite (a b : Nat) : Nat :=
  let y : Nat := ((255 - a) * (255 - b)) % 65536
  let y2 : Nat := ((y + (y >>> 8) + 0x80) % 65536) >>> 8
  255 - (y2 % 256)

/-- The product `(255 - a) * (255 - b)` of the two `u8` complements,
the intermediate `p` of the compositing algorithm. -/
def compositeProduct (a b : Nat) : Nat := (255 - a) * (255 - b)

/-- A rasterizer-produced glyph bitmap (`font_kit::canvas::Canvas` as
consumed by the example): `size.width × size.height` row-major coverage
bytes in `pixels`. -/
structure Canvas where
  width : Nat
  height : Nat
  pixels : List Nat
deriving DecidableEq

/-- `struct SimpleSurface { width: usize, height: usize, pixels: Vec<u8> }`. -/
structure SimpleSurface where
  width : Nat
  height : Nat
  pixels : List Nat
deriving DecidableEq

/-- `SimpleSurface::new`: `pixels = vec![0; width * height]`. -/
def SimpleSurface.new (width height : Nat) : SimpleSurface :=
  { width := width, height := height, pixels := List.replicate (width * height) 0 }

/-- `as usize` applied to an `i32` value on a 64-bit platform:
two's-complement reinterpretation, i.e. the value modulo `2^64`. -/
def toUsize (i : Int) : Nat := (i % (2 ^ 64 : Int)).toNat

/-- Inner loop of `paint_from_canvas` (`for xx in xmin..(xmax.max(xmin))`),
unrolled on the number `n` of remaining iterations, with `xx` the current
column.  Each iteration reads `canvas.pixels[(cw * yy + xx) as usize]`,
then reads and writes `self.pixels[((y + yy) * w + x + xx) as usize]`;
a Rust index panic is `none`. -/
def paintCols (c : Canvas) (cw w x y yy : Int) : Int → Nat → List Nat → Option (List Nat)
  | _, 0, px => some px
  | xx, n + 1, px => do
    let pix ← c.pixels[toUsize (cw * yy + xx)]?
    let dstIx := toUsize ((y + yy) * w + x + xx)
    let old ← px[dstIx]?
    paintCols c cw w x y yy (xx + 1) n (px.set dstIx (composite old pix))

/-- Outer loop of `paint_from_canvas` (`for yy in ymin..(ymax.max(ymin))`),
unrolled on the number `n` of remaining rows, with `yy` the current row;
each row runs the inner loop from column `xmin` for `ncols` iterations. -/
def paintRows (c : Canvas) (cw w x y xmin : Int) (ncols : Nat) :
    Int → Nat → List Nat → Option (List Nat)
  | _, 0, px => some px
  | yy, n + 1, px => do
    let px1 ← paintCols c cw w x y yy xmin ncols px
    paintRows c cw w x y xmin ncols (yy + 1) n px1

/-- `SimpleSurface::paint_from_canvas(&mut self, canvas, x, y)`.
`cw, ch, w, h` are the `as i32` casts of the dimensions;
`xmin = 0.max(-x)`, `xmax = cw.min(w - x)`, `ymin = 0.max(-y)`,
`ymax = ch.min(h - y)`; the loops run `yy` from `ymin` to `ymax.max(ymin)`
and `xx` from `xmin` to `xmax.max(xmin)`, so the iteration counts are
`(max ymax ymin - ymin).toNat` and `(max xmax xmin - xmin).toNat`.
The i32 casts and subtractions are written as exact `Int` operations;
each theorem below carries the bounds under which this is sound for its
conclusion (full representability for the painting theorem, and for the
no-op/safety theorems bounds under which any machine-side i32 wrap only
produces a negative bound, i.e. an emptier machine clip). -/
def SimpleSurface.paint_from_canvas (s : SimpleSurface) (c : Canvas) (x y : Int) :
    Option SimpleSurface := do
  let cw : Int := c.width
  let ch : Int := c.height
  let w : Int := s.width
  let h : Int := s.height
  let xmin : Int := max 0 (-x)
  let xmax : Int := min cw (w - x)
  let ymin : Int := max 0 (-y)
  let ymax : Int := min ch (h - y)
  let px ← paintRows c cw w x y xmin (max xmax xmin - xmin).toNat
    ymin (max ymax ymin - ymin).toNat s.pixels
  some { s with pixels := px }

/-- Decimal ASCII digits of `n`, most significant first: the bytes Rust's
`Display` implementation for `usize` produces for a `{}` hole. -/
def decimalBytes (n : Nat) : List Nat :=
  if n < 10 then [48 + n]
  else decimalBytes (n / 10) ++ [48 + n % 10]
decreasing_by exact Nat.div_lt_self (by omega) (by omega)

/-- The number denoted by a most-significant-first list of decimal ASCII
digit bytes (the reading direction of the serialized header fields). -/
def decimalValue (ds : List Nat) : Nat :=
  ds.foldl (fun a d => 10 * a + (d - 48)) 0

/-- The header bytes `write!(f, "P5\n{} {}\n255\n", self.width, self.height)`
produces: `'P' '5' '\n'` then the decimal width, `' '`, the decimal height,
then `'\n' '2' '5' '5' '\n'`. -/
def pgmHeader (width height : Nat) : List Nat :=
  [0x50, 0x35, 0x0A] ++ decimalBytes width ++ [0x20] ++ decimalBytes height
    ++ [0x0A, 0x32, 0x35, 0x35, 0x0A]

/-- `SimpleSurface::write_pgm`: the byte stream written to the file — the
formatted header followed by `f.write(&self.pixels)`. -/
def SimpleSurface.write_pgm (s : SimpleSurface) : List Nat :=
  pgmHeader s.width s.height ++ s.pixels

/-- The serialized byte stream as the spec describes it (refinement side):
the UTF-8/ASCII bytes of the string `"P5\n{width} {height}\n255\n"` with
the dimensions rendered in decimal, immediately followed by the raw pixel
bytes. -/
def pgmSpecBytes (width height : Nat) (pixels : List Nat) : List Nat :=
  (("P5\n" ++ Nat.repr width ++ " " ++ Nat.repr height ++ "\n255\n").data.map Char.toNat)
    ++ pixels

/-- The pixel-level blit contract (C1): after a successful
`paint_from_canvas` of canvas `c` at signed offset `(x, y)` turning `s`
into `r`, dimensions and buffer length are unchanged; for every
bitmap-local `(bx, byy)` inside the clipped ranges
`[max 0 (-x), min cw (w - x))` and `[max 0 (-y), min ch (h - y))` the
surface pixel at `(x + bx, y + byy)` holds
`composite (old value) (bitmap value at (bx, byy))`; and every surface
pixel outside that clipped rectangle is unchanged. -/
def PaintSpec (s : SimpleSurface) (c : Canvas) (x y : Int) (r : SimpleSurface) : Prop :=
  r.width = s.width ∧ r.height = s.height ∧ r.pixels.length = s.pixels.length ∧
  (∀ bx byy : Int,
    max 0 (-x) ≤ bx → bx < min (c.width : Int) ((s.width : Int) - x) →
    max 0 (-y) ≤ byy → byy < min (c.height : Int) ((s.height : Int) - y) →
    r.pixels.getD ((y + byy) * (s.width : Int) + x + bx).toNat 0
      = composite (s.pixels.getD ((y + byy) * (s.width : Int) + x + bx).toNat 0)
          (c.pixels.getD ((c.width : Int) * byy + bx).toNat 0)) ∧
  (∀ sx sy : Nat, sx < s.width → sy < s.height →
    ¬(max 0 (-x) ≤ (sx : Int) - x
        ∧ (sx : Int) - x < min (c.width : Int) ((s.width : Int) - x)
        ∧ max 0 (-y) ≤ (sy : Int) - y
        ∧ (sy : Int) - y < min (c.height : Int) ((s.height : Int) - y)) →
    r.pixels.getD (sy * s.width + sx) 0 = s.pixels.getD (sy * s.width + sx) 0)

/-- The exact-byte serialization contract (C3) for one surface: the output
is the spec's header string followed by the raw pixel buffer, the bytes
after the header are exactly the pixels (no padding, no trailing data),
their count is `width * height`, and the two dimension fields are genuine
decimal digit strings that parse back to `width` and `height`. -/
def PgmExactBytes (s : SimpleSurface) : Prop :=
  s.write_pgm = pgmSpecBytes s.width s.height s.pixels
  ∧ s.write_pgm = pgmHeader s.width s.height ++ s.pixels
  ∧ (s.write_pgm).drop (pgmHeader s.width s.height).length = s.pixels
  ∧ (s.write_pgm).length = (pgmHeader s.width s.height).length + s.width * s.height
  ∧ decimalValue (decimalBytes s.width) = s.width
  ∧ decimalValue (decimalBytes s.height) = s.height
  ∧ (∀ d ∈ decimalBytes s.width, 48 ≤ d ∧ d ≤ 57)
  ∧ (∀ d ∈ decimalBytes s.height, 48 ≤ d ∧ d ≤ 57)

/- ------------------------------------------------------------------ -/
/- Theorems.                                                          -/
/- ------------------------------------------------------------------ -/

theorem compositeProduct_le (a b : Nat) : compositeProduct a b ≤ 255 * 255 :=
  Nat.mul_le_mul (Nat.sub_le _ _) (Nat.sub_le _ _)

theorem composite_eq_formula (a b : Nat) :
    composite a b =
      255 - ((compositeProduct a b + compositeProduct a b / 256 + 128) / 256) := by
  have hp := compositeProduct_le a b
  simp only [composite, compositeProduct, Nat.shiftRight_eq_div_pow] at *
  generalize (255 - a) * (255 - b) = p at *
  omega

/-- C2: for `u8` inputs `a` (dst) and `b` (src), `composite a b` equals
`255 - q` where `p = (255 - a) * (255 - b)` in exact unsigned arithmetic
and `q = (p + p / 256 + 128) / 256` (i.e. `(p + (p >> 8) + 0x80) >> 8`),
the function is defined for all such pairs, and neither `p` nor the sum
`p + (p >> 8) + 0x80` overflows 16 bits. -/
theorem c2_composite_bit_for_bit (a b : Nat) (ha : a ≤ 255) (hb : b ≤ 255) :
    composite a b = 255 - ((compositeProduct a b + compositeProduct a b / 256 + 128) / 256)
    ∧ compositeProduct a b < 65536
    ∧ compositeProduct a b + compositeProduct a b / 256 + 128 < 65536 := by
  have hp := compositeProduct_le a b
  exact ⟨composite_eq_formula a b, by omega, by omega⟩

theorem c2_composite_bit_for_bit_witness :
    (3 : Nat) ≤ 255 ∧ (200 : Nat) ≤ 255 ∧
      (composite 3 200 = 255 - ((compositeProduct 3 200 + compositeProduct 3 200 / 256 + 128) / 256)
       ∧ compositeProduct 3 200 < 65536
       ∧ compositeProduct 3 200 + compositeProduct 3 200 / 256 + 128 < 65536) :=
  ⟨by decide, by decide, c2_composite_bit_for_bit 3 200 (by decide) (by decide)⟩

/-- C7: compositing identity — painting fully transparent ink changes
nothing: `composite dst 0 = dst` for every `u8` value `dst`. -/
theorem c7_composite_identity (a : Nat) (ha : a ≤ 255) : composite a 0 = a := by
  rw [composite_eq_formula]
  simp only [compositeProduct]
  omega

theorem c7_composite_identity_witness :
    (77 : Nat) ≤ 255 ∧ composite 77 0 = 77 :=
  ⟨by decide, c7_composite_identity 77 (by decide)⟩

/-- C8: compositing monotonicity — for fixed `dst` in `0..=255` the result
is non-decreasing in `src`: `src1 ≤ src2 ≤ 255` implies
`composite dst src1 ≤ composite dst src2`. -/
theorem c8_composite_mono (d s1 s2 : Nat) (hd : d ≤ 255) (h12 : s1 ≤ s2)
    (hs2 : s2 ≤ 255) : composite d s1 ≤ composite d s2 := by
  have hsub : 255 - s2 ≤ 255 - s1 := by omega
  have h21 : compositeProduct d s2 ≤ compositeProduct d s1 :=
    Nat.mul_le_mul (Nat.le_refl _) hsub
  have h1 := compositeProduct_le d s1
  rw [composite_eq_formula, composite_eq_formula]
  generalize compositeProduct d s1 = p1 at *
  generalize compositeProduct d s2 = p2 at *
  omega

theorem c8_composite_mono_witness :
    (10 : Nat) ≤ 255 ∧ (100 : Nat) ≤ (200 : Nat) ∧ (200 : Nat) ≤ 255 ∧
      composite 10 100 ≤ composite 10 200 :=
  ⟨by decide, by decide, by decide,
    c8_composite_mono 10 100 200 (by decide) (by decide) (by decide)⟩

/-- C9: compositing order-sensitivity — there are coverage values
`d, A, B` in `0..=255` with
`composite (composite d A) B ≠ composite (composite d B) A`
(here `d = 1`, `A = 1`, `B = 65`: the two orders give 66 and 67). -/
theorem c9_composite_order_sensitive :
    ∃ d A B : Nat, d ≤ 255 ∧ A ≤ 255 ∧ B ≤ 255 ∧
      composite (composite d A) B ≠ composite (composite d B) A :=
  ⟨1, 1, 65, by decide, by decide, by decide, by decide⟩

/-- C10: compositing commutativity — the two arguments enter `composite`
only through the symmetric product `(255 - a) * (255 - b)`, so
`composite a b = composite b a` (for all inputs, in particular `0..=255`). -/
theorem c10_composite_comm (a b : Nat) : composite a b = composite b a := by
  simp only [composite]
  rw [Nat.mul_comm]

theorem decimalValue_append (xs : List Nat) (d : Nat) :
    decimalValue (xs ++ [d]) = 10 * decimalValue xs + (d - 48) := by
  simp [decimalValue, List.foldl_append]

theorem decimalValue_decimalBytes (n : Nat) : decimalValue (decimalBytes n) = n := by
  induction n using Nat.strong_induction_on with
  | _ n ih =>
    rw [decimalBytes]
    split
    · simp [decimalValue]
    · rw [decimalValue_append, ih (n / 10) (Nat.div_lt_self (by omega) (by omega))]
      omega

theorem decimalBytes_is_digits (n : Nat) : ∀ d ∈ decimalBytes n, 48 ≤ d ∧ d ≤ 57 := by
  induction n using Nat.strong_induction_on with
  | _ n ih =>
    rw [decimalBytes]
    split
    · intro d hd
      simp only [List.mem_singleton] at hd
      omega
    · intro d hd
      rcases List.mem_append.mp hd with hd | hd
      · exact ih (n / 10) (Nat.div_lt_self (by omega) (by omega)) d hd
      · simp only [List.mem_singleton] at hd
        omega

theorem digitChar_toNat (k : Nat) (hk : k < 10) :
    (Nat.digitChar k).toNat = 48 + k := by
  interval_cases k <;> rfl

theorem toDigitsCore_toNat :
    ∀ (fuel n : Nat) (ds : List Char), n < fuel →
      (Nat.toDigitsCore 10 fuel n ds).map Char.toNat
        = decimalBytes n ++ ds.map Char.toNat := by
  intro fuel
  induction fuel with
  | zero => intro n ds h; omega
  | succ fuel ih =>
    intro n ds h
    rw [Nat.toDigitsCore]
    split
    · rename_i h10
      have hn : n < 10 := by omega
      have hmod : n % 10 = n := Nat.mod_eq_of_lt hn
      rw [decimalBytes, if_pos hn]
      simp [hmod, digitChar_toNat n hn]
    · rename_i h10
      have hge : 10 ≤ n := by
        by_contra hlt
        exact h10 (by omega)
      have hfl : n / 10 < fuel := by
        have h1 : n / 10 < n := Nat.div_lt_self (by omega) (by omega)
        omega
      rw [ih (n / 10) (Nat.digitChar (n % 10) :: ds) hfl]
      conv_rhs => rw [decimalBytes]
      rw [if_neg (show ¬n < 10 by omega)]
      simp [digitChar_toNat (n % 10) (by omega)]

theorem repr_data_eq_decimalBytes (n : Nat) :
    (Nat.repr n).data.map Char.toNat = decimalBytes n := by
  unfold Nat.repr Nat.toDigits
  have h := toDigitsCore_toNat (n + 1) n [] (Nat.lt_succ_self n)
  simpa [List.asString] using h

theorem write_pgm_eq_specBytes (s : SimpleSurface) :
    s.write_pgm = pgmSpecBytes s.width s.height s.pixels := by
  simp only [SimpleSurface.write_pgm, pgmSpecBytes, pgmHeader,
    String.data_append, List.map_append, repr_data_eq_decimalBytes,
    List.append_assoc]
  rfl

/-- C3: serialization writes exactly the ASCII header
`"P5\n{width} {height}\n255\n"` — format tag line, decimal width and
height separated by a space, decimal `255`, each line newline-terminated —
immediately followed by exactly `width * height` raw pixel bytes in
row-major buffer order, with no padding and no trailing data. -/
theorem c3_write_pgm_exact_bytes (s : SimpleSurface)
    (hlen : s.pixels.length = s.width * s.height) : PgmExactBytes s := by
  refine ⟨write_pgm_eq_specBytes s, rfl, ?_, ?_, decimalValue_decimalBytes _,
    decimalValue_decimalBytes _, decimalBytes_is_digits _, decimalBytes_is_digits _⟩
  · simp [SimpleSurface.write_pgm]
  · simp [SimpleSurface.write_pgm, hlen]

theorem c3_write_pgm_exact_bytes_witness :
    (SimpleSurface.new 3 2).pixels.length
        = (SimpleSurface.new 3 2).width * (SimpleSurface.new 3 2).height
    ∧ PgmExactBytes (SimpleSurface.new 3 2) :=
  ⟨by decide, c3_write_pgm_exact_bytes (SimpleSurface.new 3 2) (by decide)⟩

theorem toUsize_coe (n : Nat) (h : n < 2 ^ 64) : toUsize (n : Int) = n := by
  simp only [toUsize]
  omega

theorem getD_eq_get (l : List Nat) (i : Nat) (h : i < l.length) :
    l.getD i 0 = l[i] := by
  simp [List.getD_eq_getElem?_getD, List.getElem?_eq_getElem h]

theorem getD_set_ne (l : List Nat) (i j v : Nat) (h : i ≠ j) :
    (l.set i v).getD j 0 = l.getD j 0 := by
  simp [List.getD_eq_getElem?_getD, List.getElem?_set_ne h]

theorem rowMajor_lt (w r1 c1 r2 c2 : Int) (hc0 : 0 ≤ c1) (hc1 : c1 < w)
    (hc2 : 0 ≤ c2) (hr : r1 < r2) : r1 * w + c1 < r2 * w + c2 := by
  have hw0 : 0 ≤ w := le_trans hc0 (le_of_lt hc1)
  have h2 : (r1 + 1) * w ≤ r2 * w :=
    mul_le_mul_of_nonneg_right (by omega) hw0
  calc r1 * w + c1 < r1 * w + w := by omega
    _ = (r1 + 1) * w := by ring
    _ ≤ r2 * w := h2
    _ ≤ r2 * w + c2 := by omega

theorem rowMajor_inj (w r1 c1 r2 c2 : Int) (h10 : 0 ≤ c1) (h1w : c1 < w)
    (h20 : 0 ≤ c2) (h2w : c2 < w) (heq : r1 * w + c1 = r2 * w + c2) :
    r1 = r2 ∧ c1 = c2 := by
  rcases lt_trichotomy r1 r2 with hr | hr | hr
  · exact absurd heq (ne_of_lt (rowMajor_lt w r1 c1 r2 c2 h10 h1w h20 hr))
  · subst hr
    constructor
    · rfl
    · omega
  · exact absurd heq.symm (ne_of_lt (rowMajor_lt w r2 c2 r1 c1 h20 h2w h10 hr))

theorem rowMajorCanvas_lt (cdim r v rdim : Int) (hv0 : 0 ≤ v) (hvlt : v < cdim)
    (hr0 : 0 ≤ r) (hrlt : r < rdim) : cdim * r + v < cdim * rdim := by
  have hc0 : 0 ≤ cdim := le_trans hv0 (le_of_lt hvlt)
  have h2 : cdim * (r + 1) ≤ cdim * rdim := mul_le_mul_of_nonneg_left (by omega) hc0
  calc cdim * r + v < cdim * r + cdim := by omega
    _ = cdim * (r + 1) := by ring
    _ ≤ cdim * rdim := h2

theorem paint_from_canvas_def (s : SimpleSurface) (c : Canvas) (x y : Int) :
    s.paint_from_canvas c x y
      = (paintRows c (c.width : Int) (s.width : Int) x y (max 0 (-x))
          (max (min (c.width : Int) ((s.width : Int) - x)) (max 0 (-x)) - max 0 (-x)).toNat
          (max 0 (-y))
          (max (min (c.height : Int) ((s.height : Int) - y)) (max 0 (-y)) - max 0 (-y)).toNat
          s.pixels).bind
        (fun px => some { s with pixels := px }) := rfl

theorem paintRows_ncols_zero (c : Canvas) (cw w x y xmin : Int) :
    ∀ (n : Nat) (yy : Int) (px : List Nat),
      paintRows c cw w x y xmin 0 yy n px = some px := by
  intro n
  induction n with
  | zero => intro yy px; rfl
  | succ n ih =>
    intro yy px
    rw [paintRows]
    show (paintCols c cw w x y yy xmin 0 px).bind _ = some px
    rw [show paintCols c cw w x y yy xmin 0 px = some px from rfl]
    exact ih (yy + 1) px

theorem paintCols_length (c : Canvas) (cw w x y yy : Int) :
    ∀ (n : Nat) (xx : Int) (px px' : List Nat),
      paintCols c cw w x y yy xx n px = some px' → px'.length = px.length := by
  intro n
  induction n with
  | zero =>
    intro xx px px' h
    simp only [paintCols] at h
    cases h
    rfl
  | succ n ih =>
    intro xx px px' h
    rw [paintCols] at h
    rcases hc : c.pixels[toUsize (cw * yy + xx)]? with _ | pix
    · rw [hc] at h; cases h
    · rw [hc] at h
      rcases hp : px[toUsize ((y + yy) * w + x + xx)]? with _ | old
      · simp only [hp, Option.bind_some] at h
        cases h
      · simp only [hp, Option.bind_some] at h
        have := ih (xx + 1) _ px' h
        rw [this, List.length_set]

theorem paintRows_length (c : Canvas) (cw w x y xmin : Int) (ncols : Nat) :
    ∀ (n : Nat) (yy : Int) (px px' : List Nat),
      paintRows c cw w x y xmin ncols yy n px = some px' → px'.length = px.length := by
  intro n
  induction n with
  | zero =>
    intro yy px px' h
    simp only [paintRows] at h
    cases h
    rfl
  | succ n ih =>
    intro yy px px' h
    rw [paintRows] at h
    rcases hc : paintCols c cw w x y yy xmin ncols px with _ | px1
    · rw [hc] at h; cases h
    · rw [hc] at h
      have h1 := paintCols_length c cw w x y yy ncols xmin px px1 hc
      have h2 := ih (yy + 1) px1 px' h
      omega

/-- C4: if the computed clip range is empty or inverted in either axis
(`xmax ≤ xmin` or `ymax ≤ ymin`) then `paint_from_canvas` is a no-op —
it touches no pixel and raises no error, returning the surface unchanged;
in particular a bitmap placed entirely off-surface paints nothing.
The bounds hypotheses make the `as i32` dimension casts exact and keep
the offsets in i32; at the wrap sites that remain possible in the source
(`w - x` or `h - y` overflowing, `-x`/`-y` at the offset `-2^31`) the
wrapped i32 value is negative, so the machine's clip rectangle is a
subset of this model's — which `hempty` makes empty — and the machine
performs the same silent no-op. -/
theorem c4_clip_empty_noop (s : SimpleSurface) (c : Canvas) (x y : Int)
    (hsw : s.width < 2 ^ 31) (hsh : s.height < 2 ^ 31)
    (hcwb : c.width < 2 ^ 31) (hchb : c.height < 2 ^ 31)
    (hxlo : -(2 ^ 31) ≤ x) (hxhi : x < 2 ^ 31)
    (hylo : -(2 ^ 31) ≤ y) (hyhi : y < 2 ^ 31)
    (hempty : min (c.width : Int) ((s.width : Int) - x) ≤ max 0 (-x)
      ∨ min (c.height : Int) ((s.height : Int) - y) ≤ max 0 (-y)) :
    s.paint_from_canvas c x y = some s := by
  rw [paint_from_canvas_def]
  rcases hempty with hx | hy
  · have hz : (max (min (c.width : Int) ((s.width : Int) - x)) (max 0 (-x))
        - max 0 (-x)).toNat = 0 := by omega
    rw [hz, paintRows_ncols_zero]
    rfl
  · have hz : (max (min (c.height : Int) ((s.height : Int) - y)) (max 0 (-y))
        - max 0 (-y)).toNat = 0 := by omega
    rw [hz]
    rfl

theorem c4_clip_empty_noop_witness :
    ((SimpleSurface.new 5 4).width < 2 ^ 31
      ∧ (SimpleSurface.new 5 4).height < 2 ^ 31
      ∧ (⟨3, 3, List.replicate 9 7⟩ : Canvas).width < 2 ^ 31
      ∧ (⟨3, 3, List.replicate 9 7⟩ : Canvas).height < 2 ^ 31
      ∧ -(2 ^ 31) ≤ (5 : Int) ∧ (5 : Int) < 2 ^ 31
      ∧ -(2 ^ 31) ≤ (0 : Int) ∧ (0 : Int) < 2 ^ 31
      ∧ (min ((⟨3, 3, List.replicate 9 7⟩ : Canvas).width : Int)
            (((SimpleSurface.new 5 4).width : Int) - 5) ≤ max 0 (-(5 : Int))
          ∨ min ((⟨3, 3, List.replicate 9 7⟩ : Canvas).height : Int)
              (((SimpleSurface.new 5 4).height : Int) - 0) ≤ max 0 (-(0 : Int))))
    ∧ (SimpleSurface.new 5 4).paint_from_canvas ⟨3, 3, List.replicate 9 7⟩ 5 0
        = some (SimpleSurface.new 5 4) :=
  ⟨⟨by decide, by decide, by decide, by decide, by decide, by decide, by decide,
      by decide, Or.inl (by decide)⟩,
    c4_clip_empty_noop (SimpleSurface.new 5 4) ⟨3, 3, List.replicate 9 7⟩ 5 0
      (by decide) (by decide) (by decide) (by decide) (by decide) (by decide)
      (by decide) (by decide) (Or.inl (by decide))⟩

/-- C6: `SimpleSurface::new width height` yields the given dimensions, an
all-zero pixel buffer of length exactly `width * height`, and every
(successful) blit preserves the dimensions and the buffer length — it
mutates pixels only in place and never reallocates.  Serialization is a
pure function of the surface and cannot change it. -/
theorem c6_construction_invariant :
    (∀ w h : Nat,
      (SimpleSurface.new w h).width = w ∧ (SimpleSurface.new w h).height = h
      ∧ (SimpleSurface.new w h).pixels.length = w * h
      ∧ ∀ p ∈ (SimpleSurface.new w h).pixels, p = 0)
    ∧ (∀ (s : SimpleSurface) (c : Canvas) (x y : Int) (r : SimpleSurface),
        s.paint_from_canvas c x y = some r →
          r.width = s.width ∧ r.height = s.height
          ∧ r.pixels.length = s.pixels.length) := by
  constructor
  · intro w h
    refine ⟨rfl, rfl, List.length_replicate _ _, ?_⟩
    intro p hp
    exact List.eq_of_mem_replicate hp
  · intro s c x y r h
    rw [paint_from_canvas_def] at h
    generalize hrows : paintRows c (c.width : Int) (s.width : Int) x y (max 0 (-x))
        (max (min (c.width : Int) ((s.width : Int) - x)) (max 0 (-x)) - max 0 (-x)).toNat
        (max 0 (-y))
        (max (min (c.height : Int) ((s.height : Int) - y)) (max 0 (-y)) - max 0 (-y)).toNat
        s.pixels = res at h
    cases res with
    | none => cases h
    | some px' =>
      cases h
      exact ⟨rfl, rfl, paintRows_length _ _ _ _ _ _ _ _ _ _ _ hrows⟩

theorem c6_construction_invariant_witness :
    (SimpleSurface.new 2 2).paint_from_canvas ⟨1, 1, [5]⟩ 0 0
        = some ⟨2, 2, [5, 0, 0, 0]⟩
    ∧ ((⟨2, 2, [5, 0, 0, 0]⟩ : SimpleSurface).width = (SimpleSurface.new 2 2).width
      ∧ (⟨2, 2, [5, 0, 0, 0]⟩ : SimpleSurface).height = (SimpleSurface.new 2 2).height
      ∧ (⟨2, 2, [5, 0, 0, 0]⟩ : SimpleSurface).pixels.length
          = (SimpleSurface.new 2 2).pixels.length) :=
  ⟨by decide, c6_construction_invariant.2 (SimpleSurface.new 2 2) ⟨1, 1, [5]⟩ 0 0
      ⟨2, 2, [5, 0, 0, 0]⟩ (by decide)⟩

theorem getElem?_eq_some_getD (l : List Nat) (i : Nat) (h : i < l.length) :
    l[i]? = some (l.getD i 0) := by
  rw [List.getElem?_eq_getElem h]
  exact congrArg some (getD_eq_get l i h).symm

theorem paintCols_spec (c : Canvas) (cw w x y yy : Int) (W H : Nat)
    (hcw : cw = (c.width : Int)) (hw : w = (W : Int))
    (hclen : c.pixels.length = c.width * c.height)
    (hcsz : c.width * c.height < 2 ^ 64)
    (hssz : W * H < 2 ^ 64)
    (hyy0 : 0 ≤ yy) (hyyc : yy < (c.height : Int))
    (hrow0 : 0 ≤ y + yy) (hrowh : y + yy < (H : Int)) :
    ∀ (n : Nat) (xx : Int) (px : List Nat) (D C0 : Nat),
      px.length = W * H →
      0 ≤ xx → xx + n ≤ cw →
      0 ≤ x + xx → x + xx + n ≤ w →
      (D : Int) = (y + yy) * w + x + xx →
      (C0 : Int) = cw * yy + xx →
      ∃ px', paintCols c cw w x y yy xx n px = some px'
        ∧ px'.length = px.length
        ∧ (∀ k, k < n →
            px'[D + k]? = some (composite (px.getD (D + k) 0) (c.pixels.getD (C0 + k) 0)))
        ∧ ∀ i : Nat, i < D ∨ D + n ≤ i → px'[i]? = px[i]? := by
  intro n
  induction n with
  | zero =>
    intro xx px D C0 hpx _ _ _ _ hD hC0
    exact ⟨px, rfl, rfl, fun k hk => absurd hk (Nat.not_lt_zero k), fun i _ => rfl⟩
  | succ n ih =>
    intro xx px D C0 hpx hxx0 hxxn hcol0 hcoln hD hC0
    have hxxcw : xx < cw := by push_cast at hxxn; omega
    have hcolw : x + xx < w := by push_cast at hcoln; omega
    have hC0Int : (C0 : Int) < ((c.width * c.height : Nat) : Int) := by
      rw [hC0]
      push_cast
      rw [← hcw]
      exact rowMajorCanvas_lt cw yy xx (c.height : Int) hxx0 hxxcw hyy0 hyyc
    have hC0lt : C0 < c.pixels.length := by
      rw [hclen]
      exact_mod_cast hC0Int
    have htoC0 : toUsize (cw * yy + xx) = C0 := by
      rw [← hC0]
      exact toUsize_coe C0 (lt_trans (hclen ▸ hC0lt) hcsz)
    have hDInt : (D : Int) < ((W * H : Nat) : Int) := by
      rw [hD]
      push_cast
      have h1 : (y + yy) * w + (x + xx) < (H : Int) * w + 0 :=
        rowMajor_lt w (y + yy) (x + xx) (H : Int) 0 hcol0 hcolw le_rfl hrowh
      rw [hw] at h1 ⊢
      linarith [h1]
    have hDlt : D < px.length := by
      rw [hpx]
      exact_mod_cast hDInt
    have htoD : toUsize ((y + yy) * w + x + xx) = D := by
      rw [← hD]
      exact toUsize_coe D (lt_trans (hpx ▸ hDlt) hssz)
    rw [paintCols, htoC0, getElem?_eq_some_getD c.pixels C0 hC0lt]
    simp only [Option.bind_some, htoD]
    rw [getElem?_eq_some_getD px D hDlt]
    obtain ⟨px', hrun, hlen, hchg, hunchg⟩ :=
      ih (xx + 1) (px.set D (composite (px.getD D 0) (c.pixels.getD C0 0)))
        (D + 1) (C0 + 1)
        (by rw [List.length_set, hpx])
        (by omega)
        (by push_cast at hxxn ⊢; omega)
        (by omega)
        (by push_cast at hcoln ⊢; omega)
        (by push_cast; linarith [hD])
        (by push_cast; linarith [hC0])
    refine ⟨px', hrun, by rw [hlen, List.length_set], ?_, ?_⟩
    · intro k hk
      match k with
      | 0 =>
        simp only [Nat.add_zero]
        rw [hunchg D (Or.inl (by omega)), List.getElem?_set_eq hDlt]
      | j + 1 =>
        have e1 : D + (j + 1) = D + 1 + j := by omega
        have e2 : C0 + (j + 1) = C0 + 1 + j := by omega
        rw [e1, e2, hchg j (by omega), getD_set_ne px D (D + 1 + j) _ (by omega)]
    · intro i hi
      rw [hunchg i (by omega), List.getElem?_set_ne (by omega : D ≠ i)]

theorem toNat_add_nat (b : Int) (k : Nat) (hb : 0 ≤ b) :
    (b + (k : Int)).toNat = b.toNat + k := by omega

theorem getD_congr (l1 l2 : List Nat) (i : Nat) (h : l1[i]? = l2[i]?) :
    l1.getD i 0 = l2.getD i 0 := by
  simp [List.getD_eq_getElem?_getD, h]


theorem paintRows_spec (c : Canvas) (cw w x y xmin : Int) (W H : Nat)
    (hcw : cw = (c.width : Int)) (hw : w = (W : Int))
    (hclen : c.pixels.length = c.width * c.height)
    (hcsz : c.width * c.height < 2 ^ 64)
    (hssz : W * H < 2 ^ 64)
    (ncols : Nat)
    (hxmin0 : 0 ≤ xmin) (hxmincw : xmin + ncols ≤ cw)
    (hcol0 : 0 ≤ x + xmin) (hcolw : x + xmin + ncols ≤ w) :
    ∀ (m : Nat) (yy : Int) (px : List Nat),
      px.length = W * H →
      0 ≤ yy → yy + m ≤ (c.height : Int) →
      0 ≤ y + yy → y + yy + m ≤ (H : Int) →
      ∃ px', paintRows c cw w x y xmin ncols yy m px = some px'
        ∧ px'.length = px.length
        ∧ (∀ j k : Nat, j < m → k < ncols →
            px'[((y + yy + (j : Int)) * w + x + xmin + (k : Int)).toNat]?
              = some (composite
                  (px.getD ((y + yy + (j : Int)) * w + x + xmin + (k : Int)).toNat 0)
                  (c.pixels.getD (cw * (yy + (j : Int)) + xmin + (k : Int)).toNat 0)))
        ∧ ∀ i : Nat, (∀ j k : Nat, j < m → k < ncols →
              (i : Int) ≠ (y + yy + (j : Int)) * w + x + xmin + (k : Int)) →
            px'[i]? = px[i]? := by
  intro m
  induction m with
  | zero =>
    intro yy px hpx _ _ _ _
    exact ⟨px, rfl, rfl, fun j k hj _ => absurd hj (Nat.not_lt_zero j), fun i _ => rfl⟩
  | succ m ih =>
    intro yy px hpx hyy0 hyym hrow0 hrowm
    have hyyc : yy < (c.height : Int) := by push_cast at hyym; omega
    have hrowh : y + yy < (H : Int) := by push_cast at hrowm; omega
    have hw0 : 0 ≤ w := by rw [hw]; positivity
    have hcw0 : 0 ≤ cw := by rw [hcw]; positivity
    have hD0 : 0 ≤ (y + yy) * w + x + xmin := by
      have h1 : 0 ≤ (y + yy) * w := mul_nonneg hrow0 hw0
      omega
    have hC00 : 0 ≤ cw * yy + xmin := by
      have h1 : 0 ≤ cw * yy := mul_nonneg hcw0 hyy0
      omega
    have hD0N : ((((y + yy) * w + x + xmin).toNat : Nat) : Int)
        = (y + yy) * w + x + xmin := Int.toNat_of_nonneg hD0
    have hC00N : (((cw * yy + xmin).toNat : Nat) : Int)
        = cw * yy + xmin := Int.toNat_of_nonneg hC00
    obtain ⟨px1, hrun1, hlen1, hchg1, hunchg1⟩ :=
      paintCols_spec c cw w x y yy W H hcw hw hclen hcsz hssz hyy0 hyyc hrow0 hrowh
        ncols xmin px ((y + yy) * w + x + xmin).toNat (cw * yy + xmin).toNat
        hpx hxmin0 hxmincw hcol0 hcolw hD0N hC00N
    obtain ⟨px', hrun2, hlen2, hchg2, hunchg2⟩ :=
      ih (yy + 1) px1 (by rw [hlen1, hpx])
        (by omega) (by push_cast at hyym ⊢; omega)
        (by omega) (by push_cast at hrowm ⊢; omega)
    have hsep : ∀ j : Nat, (y + yy) * w + x + xmin + ncols
        ≤ (y + (yy + 1) + (j : Int)) * w + x + xmin := by
      intro j
      have h1 : (y + yy + 1) * w ≤ (y + (yy + 1) + (j : Int)) * w := by
        apply mul_le_mul_of_nonneg_right ?_ hw0
        have hj0 : (0 : Int) ≤ (j : Int) := by positivity
        linarith
      have h2 : (y + yy + 1) * w = (y + yy) * w + w := by ring
      linarith [hcolw, hcol0]
    refine ⟨px', ?_, hlen2.trans hlen1, ?_, ?_⟩
    · rw [paintRows, hrun1]
      exact hrun2
    · intro j k hj hk
      cases j with
      | zero =>
        have e1 : (y + yy + ((0 : Nat) : Int)) * w + x + xmin + (k : Int)
            = ((y + yy) * w + x + xmin) + (k : Int) := by push_cast; ring
        have e2 : cw * (yy + ((0 : Nat) : Int)) + xmin + (k : Int)
            = (cw * yy + xmin) + (k : Int) := by push_cast; ring
        rw [e1, e2, toNat_add_nat _ k hD0, toNat_add_nat _ k hC00]
        have htrans : px'[((y + yy) * w + x + xmin).toNat + k]?
            = px1[((y + yy) * w + x + xmin).toNat + k]? := by
          apply hunchg2
          intro j' k' hj' hk'
          have hlt : ((((y + yy) * w + x + xmin).toNat + k : Nat) : Int)
              < (y + (yy + 1) + (j' : Int)) * w + x + xmin + (k' : Int) := by
            rw [Nat.cast_add, hD0N]
            have hs := hsep j'
            have hk'0 : (0 : Int) ≤ (k' : Int) := by positivity
            have hkc : ((k : Nat) : Int) < ((ncols : Nat) : Int) := by
              exact_mod_cast hk
            linarith
          exact ne_of_lt hlt
        rw [htrans]
        exact hchg1 k hk
      | succ j =>
        have e1 : (y + yy + ((j + 1 : Nat) : Int)) * w + x + xmin + (k : Int)
            = (y + (yy + 1) + (j : Int)) * w + x + xmin + (k : Int) := by
          push_cast; ring
        have e2 : cw * (yy + ((j + 1 : Nat) : Int)) + xmin + (k : Int)
            = cw * (yy + 1 + (j : Int)) + xmin + (k : Int) := by
          push_cast; ring
        rw [e1, e2, hchg2 j k (by omega) hk]
        have hjnn : 0 ≤ (y + (yy + 1) + (j : Int)) * w + x + xmin + (k : Int) := by
          have hs := hsep j
          have hk0 : (0 : Int) ≤ (k : Int) := by positivity
          have hn0 : (0 : Int) ≤ ((ncols : Nat) : Int) := by positivity
          linarith
        have hIjN : ((((y + (yy + 1) + (j : Int)) * w + x + xmin + (k : Int)).toNat : Nat) : Int)
            = (y + (yy + 1) + (j : Int)) * w + x + xmin + (k : Int) :=
          Int.toNat_of_nonneg hjnn
        have hgeInt : ((((y + yy) * w + x + xmin).toNat + ncols : Nat) : Int)
            ≤ ((((y + (yy + 1) + (j : Int)) * w + x + xmin + (k : Int)).toNat : Nat) : Int) := by
          rw [Nat.cast_add, hD0N, hIjN]
          have hs := hsep j
          have hk0 : (0 : Int) ≤ (k : Int) := by positivity
          linarith
        have hge : ((y + yy) * w + x + xmin).toNat + ncols
            ≤ (((y + (yy + 1) + (j : Int)) * w + x + xmin + (k : Int)).toNat) := by
          exact_mod_cast hgeInt
        have hpx1 : px1.getD (((y + (yy + 1) + (j : Int)) * w + x + xmin + (k : Int)).toNat) 0
            = px.getD (((y + (yy + 1) + (j : Int)) * w + x + xmin + (k : Int)).toNat) 0 :=
          getD_congr _ _ _ (hunchg1 _ (Or.inr hge))
        rw [hpx1]
    · intro i hni
      have h2 : px'[i]? = px1[i]? := by
        apply hunchg2
        intro j' k' hj' hk'
        intro heq
        exact hni (j' + 1) k' (by omega) hk' (by rw [heq]; push_cast; ring)
      rw [h2]
      apply hunchg1
      rcases Nat.lt_or_ge i (((y + yy) * w + x + xmin).toNat) with hlt | hge1
      · exact Or.inl hlt
      · rcases Nat.lt_or_ge i (((y + yy) * w + x + xmin).toNat + ncols) with hlt2 | hge2
        · exfalso
          have hkn : i - ((y + yy) * w + x + xmin).toNat < ncols := by omega
          have heq : (i : Int) = (y + yy + ((0 : Nat) : Int)) * w + x + xmin
              + ((i - ((y + yy) * w + x + xmin).toNat : Nat) : Int) := by
            have e : ((i - ((y + yy) * w + x + xmin).toNat : Nat) : Int)
                = (i : Int) - ((((y + yy) * w + x + xmin).toNat : Nat) : Int) := by
              omega
            rw [e, hD0N]
            push_cast
            ring
          exact hni 0 _ (by omega) hkn heq
        · exact Or.inr hge2

theorem paint_from_canvas_spec (s : SimpleSurface) (c : Canvas) (x y : Int)
    (hsl : s.pixels.length = s.width * s.height)
    (hcl : c.pixels.length = c.width * c.height)
    (hssz : s.width * s.height < 2 ^ 31) (hcsz : c.width * c.height < 2 ^ 31)
    (hsw : s.width < 2 ^ 31) (hsh : s.height < 2 ^ 31)
    (hcwb : c.width < 2 ^ 31) (hchb : c.height < 2 ^ 31)
    (hxlo : -(2 ^ 31) ≤ x) (hxhi : x < 2 ^ 31)
    (hylo : -(2 ^ 31) ≤ y) (hyhi : y < 2 ^ 31) :
    ∃ r, s.paint_from_canvas c x y = some r ∧ PaintSpec s c x y r := by
  by_cases hempty : min (c.width : Int) ((s.width : Int) - x) ≤ max 0 (-x)
      ∨ min (c.height : Int) ((s.height : Int) - y) ≤ max 0 (-y)
  · -- empty or inverted clip range: the blit is a no-op
    refine ⟨s, ?_, rfl, rfl, rfl, ?_, ?_⟩
    · rw [paint_from_canvas_def]
      rcases hempty with hx | hy
      · have hz : (max (min (c.width : Int) ((s.width : Int) - x)) (max 0 (-x))
            - max 0 (-x)).toNat = 0 := by omega
        rw [hz, paintRows_ncols_zero]
        rfl
      · have hz : (max (min (c.height : Int) ((s.height : Int) - y)) (max 0 (-y))
            - max 0 (-y)).toNat = 0 := by omega
        rw [hz]
        rfl
    · intro bx byy hbx1 hbx2 hby1 hby2
      exfalso
      rcases hempty with hx | hy
      · omega
      · omega
    · intro sx sy _ _ _
      rfl
  · push_neg at hempty
    obtain ⟨hxne, hyne⟩ := hempty
    obtain ⟨px', hrun, hlen, hchg, hunchg⟩ :=
      paintRows_spec c (c.width : Int) (s.width : Int) x y (max 0 (-x))
        s.width s.height rfl rfl hcl
        (lt_trans hcsz (by norm_num)) (lt_trans hssz (by norm_num))
        (max (min (c.width : Int) ((s.width : Int) - x)) (max 0 (-x)) - max 0 (-x)).toNat
        (le_max_left 0 (-x))
        (by omega) (by omega) (by omega)
        (max (min (c.height : Int) ((s.height : Int) - y)) (max 0 (-y)) - max 0 (-y)).toNat
        (max 0 (-y)) s.pixels hsl
        (le_max_left 0 (-y))
        (by omega) (by omega) (by omega)
    refine ⟨{ s with pixels := px' }, ?_, rfl, rfl, hlen, ?_, ?_⟩
    · rw [paint_from_canvas_def, hrun]
      rfl
    · intro bx byy hbx1 hbx2 hby1 hby2
      have hjv : (((byy - max 0 (-y)).toNat : Nat) : Int) = byy - max 0 (-y) := by omega
      have hkv : (((bx - max 0 (-x)).toNat : Nat) : Int) = bx - max 0 (-x) := by omega
      have hj : (byy - max 0 (-y)).toNat
          < (max (min (c.height : Int) ((s.height : Int) - y)) (max 0 (-y))
              - max 0 (-y)).toNat := by omega
      have hk : (bx - max 0 (-x)).toNat
          < (max (min (c.width : Int) ((s.width : Int) - x)) (max 0 (-x))
              - max 0 (-x)).toNat := by omega
      have hstep := hchg (byy - max 0 (-y)).toNat (bx - max 0 (-x)).toNat hj hk
      have e1 : (y + max 0 (-y) + (((byy - max 0 (-y)).toNat : Nat) : Int)) * (s.width : Int)
            + x + max 0 (-x) + (((bx - max 0 (-x)).toNat : Nat) : Int)
          = (y + byy) * (s.width : Int) + x + bx := by
        rw [hjv, hkv]; ring
      have e2 : (c.width : Int) * (max 0 (-y) + (((byy - max 0 (-y)).toNat : Nat) : Int))
            + max 0 (-x) + (((bx - max 0 (-x)).toNat : Nat) : Int)
          = (c.width : Int) * byy + bx := by
        rw [hjv, hkv]; ring
      rw [e1, e2] at hstep
      simp only [List.getD_eq_getElem?_getD, hstep, Option.getD_some]
    · intro sx sy hsx hsy hnot
      apply getD_congr
      apply hunchg
      intro j k hj hk heq
      apply hnot
      have hiv : ((sy * s.width + sx : Nat) : Int)
          = (sy : Int) * (s.width : Int) + (sx : Int) := by push_cast; ring
      have heq2 : (sy : Int) * (s.width : Int) + (sx : Int)
          = (y + max 0 (-y) + (j : Int)) * (s.width : Int)
            + (x + max 0 (-x) + (k : Int)) := by
        rw [← hiv, heq]; ring
      have hj0 : (0 : Int) ≤ (j : Int) := by positivity
      have hk0 : (0 : Int) ≤ (k : Int) := by positivity
      have hcollt : x + max 0 (-x) + (k : Int) < (s.width : Int) := by omega
      have hcol0 : 0 ≤ x + max 0 (-x) + (k : Int) := by omega
      have hsxw : ((sx : Nat) : Int) < (s.width : Int) := by exact_mod_cast hsx
      have hsx0 : (0 : Int) ≤ (sx : Int) := by positivity
      obtain ⟨hr, hc⟩ := rowMajor_inj (s.width : Int) (sy : Int) (sx : Int)
        (y + max 0 (-y) + (j : Int)) (x + max 0 (-x) + (k : Int))
        hsx0 hsxw hcol0 hcollt heq2
      refine ⟨by omega, by omega, by omega, by omega⟩

/-- C1: blit functional correctness — for every surface and glyph bitmap
satisfying the buffer-length invariants, `paint_from_canvas` succeeds, and
the result composites every pixel of the clipped rectangle
(`xmin = max 0 (-x)`, `xmax = min cw (w - x)`, `ymin = max 0 (-y)`,
`ymax = min ch (h - y)`) while leaving every other surface pixel unchanged
— see `PaintSpec`.  The hypotheses make every i32 intermediate of the
source representable: the dimension casts and the products bounding the
loop indices by `hsw`–`hchb`/`hssz`/`hcsz`, the offsets by
`hxlo`–`hyhi`, the subtractions `w - x` and `h - y` by `hwx`/`hhy`
(which also rule out `x = -2^31` and `y = -2^31`, so `-x` and `-y` are
representable too), hence on this domain the `Int` model agrees with the
machine arithmetic step by step. -/
theorem c1_paint_from_canvas_correct (s : SimpleSurface) (c : Canvas) (x y : Int)
    (hsl : s.pixels.length = s.width * s.height)
    (hcl : c.pixels.length = c.width * c.height)
    (hssz : s.width * s.height < 2 ^ 31) (hcsz : c.width * c.height < 2 ^ 31)
    (hsw : s.width < 2 ^ 31) (hsh : s.height < 2 ^ 31)
    (hcwb : c.width < 2 ^ 31) (hchb : c.height < 2 ^ 31)
    (hxlo : -(2 ^ 31) ≤ x) (hxhi : x < 2 ^ 31)
    (hylo : -(2 ^ 31) ≤ y) (hyhi : y < 2 ^ 31)
    (hwx : (s.width : Int) - x < 2 ^ 31)
    (hhy : (s.height : Int) - y < 2 ^ 31) :
    ∃ r, s.paint_from_canvas c x y = some r ∧ PaintSpec s c x y r :=
  paint_from_canvas_spec s c x y hsl hcl hssz hcsz hsw hsh hcwb hchb
    hxlo hxhi hylo hyhi

theorem c1_paint_from_canvas_correct_witness :
    ((SimpleSurface.new 10 10).pixels.length
        = (SimpleSurface.new 10 10).width * (SimpleSurface.new 10 10).height
      ∧ (Canvas.mk 4 4 (List.replicate 16 255)).pixels.length
        = (Canvas.mk 4 4 (List.replicate 16 255)).width
            * (Canvas.mk 4 4 (List.replicate 16 255)).height
      ∧ (SimpleSurface.new 10 10).width * (SimpleSurface.new 10 10).height < 2 ^ 31
      ∧ (Canvas.mk 4 4 (List.replicate 16 255)).width
            * (Canvas.mk 4 4 (List.replicate 16 255)).height < 2 ^ 31
      ∧ (SimpleSurface.new 10 10).width < 2 ^ 31
      ∧ (SimpleSurface.new 10 10).height < 2 ^ 31
      ∧ (Canvas.mk 4 4 (List.replicate 16 255)).width < 2 ^ 31
      ∧ (Canvas.mk 4 4 (List.replicate 16 255)).height < 2 ^ 31
      ∧ -(2 ^ 31) ≤ (-2 : Int) ∧ (-2 : Int) < 2 ^ 31
      ∧ ((SimpleSurface.new 10 10).width : Int) - (-2) < 2 ^ 31
      ∧ ((SimpleSurface.new 10 10).height : Int) - (-2) < 2 ^ 31)
    ∧ ∃ r, (SimpleSurface.new 10 10).paint_from_canvas
          (Canvas.mk 4 4 (List.replicate 16 255)) (-2) (-2) = some r
        ∧ PaintSpec (SimpleSurface.new 10 10) (Canvas.mk 4 4 (List.replicate 16 255))
            (-2) (-2) r :=
  ⟨by decide,
    c1_paint_from_canvas_correct (SimpleSurface.new 10 10)
      (Canvas.mk 4 4 (List.replicate 16 255)) (-2) (-2)
      (by decide) (by decide) (by decide) (by decide) (by decide) (by decide)
      (by decide) (by decide) (by decide) (by decide) (by decide) (by decide)
      (by decide) (by decide)⟩

/-- C5: blit safety — for every surface satisfying the length invariant,
every bitmap whose buffer length is `cw * ch` (dimensions and offsets in
i32-representable range), and every signed offset, including offsets
placing the bitmap partially or fully off-surface and zero-size bitmaps,
`paint_from_canvas` never indexes either buffer out of bounds: the blit
always returns `some` and the out-of-bounds branch (`none`, the model of a
Rust panic) is unreachable. -/
theorem c5_paint_from_canvas_safe (s : SimpleSurface) (c : Canvas) (x y : Int)
    (hsl : s.pixels.length = s.width * s.height)
    (hcl : c.pixels.length = c.width * c.height)
    (hssz : s.width * s.height < 2 ^ 31) (hcsz : c.width * c.height < 2 ^ 31)
    (hsw : s.width < 2 ^ 31) (hsh : s.height < 2 ^ 31)
    (hcwb : c.width < 2 ^ 31) (hchb : c.height < 2 ^ 31)
    (hxlo : -(2 ^ 31) ≤ x) (hxhi : x < 2 ^ 31)
    (hylo : -(2 ^ 31) ≤ y) (hyhi : y < 2 ^ 31) :
    ∃ r, s.paint_from_canvas c x y = some r := by
  obtain ⟨r, hr, _⟩ := paint_from_canvas_spec s c x y hsl hcl hssz hcsz hsw hsh
    hcwb hchb hxlo hxhi hylo hyhi
  exact ⟨r, hr⟩

theorem c5_paint_from_canvas_safe_witness :
    ((SimpleSurface.new 3 3).pixels.length
        = (SimpleSurface.new 3 3).width * (SimpleSurface.new 3 3).height
      ∧ (Canvas.mk 2 2 [10, 20, 30, 40]).pixels.length
        = (Canvas.mk 2 2 [10, 20, 30, 40]).width
            * (Canvas.mk 2 2 [10, 20, 30, 40]).height
      ∧ (SimpleSurface.new 3 3).width * (SimpleSurface.new 3 3).height < 2 ^ 31
      ∧ (Canvas.mk 2 2 [10, 20, 30, 40]).width
            * (Canvas.mk 2 2 [10, 20, 30, 40]).height < 2 ^ 31
      ∧ (SimpleSurface.new 3 3).width < 2 ^ 31
      ∧ (SimpleSurface.new 3 3).height < 2 ^ 31
      ∧ (Canvas.mk 2 2 [10, 20, 30, 40]).width < 2 ^ 31
      ∧ (Canvas.mk 2 2 [10, 20, 30, 40]).height < 2 ^ 31
      ∧ -(2 ^ 31) ≤ (2 : Int) ∧ (2 : Int) < 2 ^ 31
      ∧ -(2 ^ 31) ≤ (-1 : Int) ∧ (-1 : Int) < 2 ^ 31)
    ∧ ∃ r, (SimpleSurface.new 3 3).paint_from_canvas
          (Canvas.mk 2 2 [10, 20, 30, 40]) 2 (-1) = some r :=
  ⟨by decide,
    c5_paint_from_canvas_safe (SimpleSurface.new 3 3)
      (Canvas.mk 2 2 [10, 20, 30, 40]) 2 (-1)
      (by decide) (by decide) (by decide) (by decide) (by decide) (by decide)
      (by decide) (by decide) (by decide) (by decide) (by decide) (by decide)⟩
